import Mathlib

/-!
Verification development for the investsage repository's options-pricing,
portfolio-risk and tax-lot rebalancing engines.

The Python sources are shallowly embedded:

* the Black-Scholes pricing and Greeks routines
  (`boodle_loot/analysis/options.py` and `backend/analysis/options.py`)
  are embedded over the real numbers, with `scipy.stats.norm.cdf`/`pdf`
  denoted by the standard normal CDF/PDF;
* the tax-lot rebalancer (`python/analysis/portfolio.py`), the portfolio
  optimizer dispatch (`boodle_loot/analysis/portfolio.py`), the VaR
  computations (`boodle_loot/analysis/{portfolio,risk}.py`), the skew
  analysis and the put/call ratios (`backend/analysis/options.py`,
  `boodle_loot/analysis/options.py`) are embedded over the rationals,
  with pandas means over empty frames (NaN) denoted by `Option`;
* one numeric edge case of the pricing routine is additionally embedded
  over a small IEEE-style scalar type `PyFloat` that records numpy's
  silent division-by-zero behaviour (inf/nan propagation instead of a
  Python exception).
-/

open MeasureTheory Set

namespace InvestSage

/-- Standard normal probability density function, the denotation of
`scipy.stats.norm.pdf`. -/
noncomputable def normPdf (x : ℝ) : ℝ := ProbabilityTheory.gaussianPDFReal 0 1 x

/-- Standard normal cumulative distribution function, the denotation of
`scipy.stats.norm.cdf`. -/
noncomputable def normCdf (x : ℝ) : ℝ := ∫ t in Iic x, normPdf t

/-- Option side tag, the `option_type` string of the source
(`'call'` or `'put'`). -/
inductive OptionType where
  | call
  | put
deriving DecidableEq

/-- Black-Scholes `d1` as computed inline by `_calculate_option_price` and
`_calculate_greeks` (`boodle_loot/analysis/options.py` lines 91 and 108):
`d1 = (np.log(S/K) + (r + sigma**2/2)*T) / (sigma*np.sqrt(T))`. -/
noncomputable def calculate_d1 (S K T r sigma : ℝ) : ℝ :=
  (Real.log (S / K) + (r + sigma ^ 2 / 2) * T) / (sigma * Real.sqrt T)

/-- Black-Scholes `d2 = d1 - sigma*np.sqrt(T)`. -/
noncomputable def calculate_d2 (S K T r sigma : ℝ) : ℝ :=
  calculate_d1 S K T r sigma - sigma * Real.sqrt T

/-- `_calculate_option_price` of `boodle_loot/analysis/options.py`
(lines 87-102), the Black-Scholes closed form:
call `S*norm.cdf(d1) - K*np.exp(-r*T)*norm.cdf(d2)`,
put `K*np.exp(-r*T)*norm.cdf(-d2) - S*norm.cdf(-d1)`. -/
noncomputable def calculate_option_price (S K T r sigma : ℝ) :
    OptionType → ℝ
  | .call => S * normCdf (calculate_d1 S K T r sigma) -
      K * Real.exp (-r * T) * normCdf (calculate_d2 S K T r sigma)
  | .put => K * Real.exp (-r * T) * normCdf (-calculate_d2 S K T r sigma) -
      S * normCdf (-calculate_d1 S K T r sigma)

/-- Record of the five Greeks returned by `_calculate_greeks`. -/
structure Greeks where
  delta : ℝ
  gamma : ℝ
  theta : ℝ
  vega : ℝ
  rho : ℝ

/-- `_calculate_greeks` of `boodle_loot/analysis/options.py` (lines 104-142). -/
noncomputable def calculate_greeks (S K T r sigma : ℝ) : OptionType → Greeks
  | .call =>
      let d1 := calculate_d1 S K T r sigma
      let d2 := calculate_d2 S K T r sigma
      { delta := normCdf d1
        gamma := normPdf d1 / (S * sigma * Real.sqrt T)
        theta := -S * normPdf d1 * sigma / (2 * Real.sqrt T) -
          r * K * Real.exp (-r * T) * normCdf d2
        vega := S * Real.sqrt T * normPdf d1
        rho := K * T * Real.exp (-r * T) * normCdf d2 }
  | .put =>
      let d1 := calculate_d1 S K T r sigma
      let d2 := calculate_d2 S K T r sigma
      { delta := normCdf d1 - 1
        gamma := normPdf d1 / (S * sigma * Real.sqrt T)
        theta := -S * normPdf d1 * sigma / (2 * Real.sqrt T) +
          r * K * Real.exp (-r * T) * normCdf (-d2)
        vega := S * Real.sqrt T * normPdf d1
        rho := -(K * T * Real.exp (-r * T) * normCdf (-d2)) }

/-- The fixed `self.risk_free_rate` of `backend/analysis/options.py` (3%). -/
noncomputable def backend_risk_free_rate : ℝ := 3 / 100

/-- `_calculate_d1` of `backend/analysis/options.py` (lines 377-379). -/
noncomputable def backend_d1 (S K T sigma : ℝ) : ℝ :=
  (Real.log (S / K) + (backend_risk_free_rate + 0.5 * sigma ^ 2) * T) /
    (sigma * Real.sqrt T)

/-- `_calculate_delta` of `backend/analysis/options.py` (lines 332-339). -/
noncomputable def backend_delta (S K T sigma : ℝ) : OptionType → ℝ
  | .call => normCdf (backend_d1 S K T sigma)
  | .put => normCdf (backend_d1 S K T sigma) - 1

/-- `_calculate_vega` of `backend/analysis/options.py` (lines 361-364). -/
noncomputable def backend_vega (S K T sigma : ℝ) : ℝ :=
  S * Real.sqrt T * normPdf (backend_d1 S K T sigma)

/-- IEEE-style scalar recording numpy's special values: numpy float64
arithmetic does not raise on division by zero, it produces `inf`/`-inf`/`nan`
(with a warning) and propagates them. -/
inductive PyFloat where
  | val (x : ℝ)
  | posInf
  | negInf
  | nan

/-- numpy float64 division. Finite operands divide in ℝ; division by zero
yields `inf`, `-inf` or `nan` by the sign of the numerator, without raising.
Operand combinations not reachable from the embedded expressions are mapped
to `nan`. -/
noncomputable def pyDiv : PyFloat → PyFloat → PyFloat
  | .val a, .val b =>
      if b ≠ 0 then .val (a / b)
      else if 0 < a then .posInf
      else if a < 0 then .negInf
      else .nan
  | _, _ => .nan

/-- numpy float64 subtraction with special-value propagation. -/
noncomputable def pySub : PyFloat → PyFloat → PyFloat
  | .val a, .val b => .val (a - b)
  | .posInf, .val _ => .posInf
  | .negInf, .val _ => .negInf
  | .val _, .posInf => .negInf
  | .val _, .negInf => .posInf
  | .posInf, .negInf => .posInf
  | .negInf, .posInf => .negInf
  | _, _ => .nan

/-- numpy float64 multiplication restricted to the combinations reachable
from the embedded expressions (finite times finite; anything with `nan`
is `nan`). -/
noncomputable def pyMul : PyFloat → PyFloat → PyFloat
  | .val a, .val b => .val (a * b)
  | _, _ => .nan

/-- numpy float64 negation. -/
noncomputable def pyNeg : PyFloat → PyFloat
  | .val x => .val (-x)
  | .posInf => .negInf
  | .negInf => .posInf
  | .nan => .nan

/-- `scipy.stats.norm.cdf` on numpy special values: `cdf(inf) = 1`,
`cdf(-inf) = 0`, `cdf(nan) = nan`. -/
noncomputable def pyCdf : PyFloat → PyFloat
  | .val x => .val (normCdf x)
  | .posInf => .val 1
  | .negInf => .val 0
  | .nan => .nan

/-- `_calculate_option_price` of `boodle_loot/analysis/options.py`
(lines 87-102) under numpy float semantics. For positive finite spot and
strike the numerator of `d1` and the factors `S` and `K*np.exp(-r*T)` are
finite, so the only source of special values is the division by
`sigma*np.sqrt(T)`; the surrounding `try/except` therefore never fires on
such inputs and the function returns whatever the expression evaluates to. -/
noncomputable def calculate_option_price_py (S K T r sigma : ℝ) :
    OptionType → PyFloat :=
  let d1 := pyDiv (.val (Real.log (S / K) + (r + sigma ^ 2 / 2) * T))
    (.val (sigma * Real.sqrt T))
  let d2 := pySub d1 (.val (sigma * Real.sqrt T))
  fun t =>
    match t with
    | .call => pySub (pyMul (.val S) (pyCdf d1))
        (pyMul (.val (K * Real.exp (-r * T))) (pyCdf d2))
    | .put => pySub (pyMul (.val (K * Real.exp (-r * T))) (pyCdf (pyNeg d2)))
        (pyMul (.val S) (pyCdf (pyNeg d1)))

/-- `TaxLot` dataclass of `python/analysis/portfolio.py` (lines 12-17),
projected to the fields `_suggest_tax_efficient_sell` reads; the purchase
date is never consulted there, only the precomputed `is_long_term` flag. -/
structure TaxLot where
  shares : ℚ
  cost_basis : ℚ
  is_long_term : Bool
deriving DecidableEq

/-- `Position` dataclass of `python/analysis/portfolio.py` (lines 19-41),
projected to the fields `_suggest_tax_efficient_sell` reads. -/
structure Position where
  symbol : String
  current_price : ℚ
  tax_lots : List TaxLot
deriving DecidableEq

/-- `self.long_term_tax_rate = 0.20` of `TaxAwarePortfolioAnalyzer`. -/
def long_term_tax_rate : ℚ := 20 / 100

/-- `self.short_term_tax_rate = 0.37` of `TaxAwarePortfolioAnalyzer`. -/
def short_term_tax_rate : ℚ := 37 / 100

/-- The rate factor `(self.long_term_tax_rate if lot.is_long_term else
self.short_term_tax_rate)` used by both selling loops. -/
def lotRate (lot : TaxLot) : ℚ :=
  if lot.is_long_term then long_term_tax_rate else short_term_tax_rate

/-- An entry of the `selected_lots` list built by
`_suggest_tax_efficient_sell` (a dict with keys `shares`, `cost_basis`,
`is_long_term`). -/
structure SelectedLot where
  shares : ℚ
  cost_basis : ℚ
  is_long_term : Bool
deriving DecidableEq

/-- The dictionary returned by `_suggest_tax_efficient_sell`
(lines 192-198); the constant `action: sell` key is omitted. -/
structure SellSuggestion where
  symbol : String
  lots : List SelectedLot
  proceeds : ℚ
  tax_impact : ℚ
deriving DecidableEq

/-- Stable insertion into a list sorted by a rational key. -/
def insertSorted {α : Type} (key : α → ℚ) (x : α) : List α → List α
  | [] => [x]
  | y :: ys =>
      if key x ≤ key y then x :: y :: ys else y :: insertSorted key x ys

/-- Stable sort by a rational key; produces the same list as Python's
stable `sorted(..., key=...)`. -/
def sortByKey {α : Type} (key : α → ℚ) : List α → List α
  | [] => []
  | x :: xs => insertSorted key x (sortByKey key xs)

/-- Mutable state of the two selling loops of
`_suggest_tax_efficient_sell`: `shares_to_sell`, `selected_lots`,
`total_proceeds`, `total_tax_impact`. -/
structure SellState where
  shares_to_sell : ℚ
  selected_lots : List SelectedLot
  total_proceeds : ℚ
  total_tax_impact : ℚ
deriving DecidableEq

/-- First loop of `_suggest_tax_efficient_sell`
(`python/analysis/portfolio.py` lines 147-163): harvest lots whose cost
basis exceeds the current price, taking `min(shares_to_sell, lot.shares)`
shares and adding `(cost_basis - price) * shares * rate` to the tax impact;
the loop breaks as soon as `shares_to_sell <= 0`. -/
def lossHarvestLoop (price : ℚ) : List TaxLot → SellState → SellState
  | [], s => s
  | lot :: rest, s =>
      let t :=
        if price < lot.cost_basis then
          let sh := min s.shares_to_sell lot.shares
          if 0 < sh then
            { shares_to_sell := s.shares_to_sell - sh
              selected_lots :=
                s.selected_lots ++ [⟨sh, lot.cost_basis, lot.is_long_term⟩]
              total_proceeds := s.total_proceeds + sh * price
              total_tax_impact := s.total_tax_impact +
                (lot.cost_basis - price) * sh * lotRate lot }
          else s
        else s
      if t.shares_to_sell ≤ 0 then t else lossHarvestLoop price rest t

/-- Second loop of `_suggest_tax_efficient_sell`
(`python/analysis/portfolio.py` lines 175-190): sell from the remaining
(gain) lots, adding `(price - cost_basis) * shares * rate` to the tax
impact; the loop breaks as soon as `shares_to_sell <= 0`. -/
def gainSellLoop (price : ℚ) : List TaxLot → SellState → SellState
  | [], s => s
  | lot :: rest, s =>
      let sh := min s.shares_to_sell lot.shares
      let t :=
        if 0 < sh then
          { shares_to_sell := s.shares_to_sell - sh
            selected_lots :=
              s.selected_lots ++ [⟨sh, lot.cost_basis, lot.is_long_term⟩]
            total_proceeds := s.total_proceeds + sh * price
            total_tax_impact := s.total_tax_impact +
              (price - lot.cost_basis) * sh * lotRate lot }
        else s
      if t.shares_to_sell ≤ 0 then t else gainSellLoop price rest t

/-- `_suggest_tax_efficient_sell` of `python/analysis/portfolio.py`
(lines 127-198): sort the lots by `(cost_basis - price) / cost_basis`,
harvest losses first, then, if shares remain to be sold, sell from the
lots with `cost_basis <= price` ordered by the tax-sensitivity-weighted
gain score. -/
def suggest_tax_efficient_sell (position : Position)
    (target_value tax_sensitivity : ℚ) : Option SellSuggestion :=
  if position.tax_lots.isEmpty then none
  else
    let tax_lots := sortByKey
      (fun lot => (lot.cost_basis - position.current_price) / lot.cost_basis)
      position.tax_lots
    let s0 : SellState := ⟨target_value / position.current_price, [], 0, 0⟩
    let s1 := lossHarvestLoop position.current_price tax_lots s0
    let s2 :=
      if 0 < s1.shares_to_sell then
        let remaining_lots := tax_lots.filter
          (fun lot => decide (lot.cost_basis ≤ position.current_price))
        let sorted_remaining := sortByKey
          (fun lot =>
            (position.current_price - lot.cost_basis) / lot.cost_basis *
              (if lot.is_long_term then 1 else 2) * tax_sensitivity)
          remaining_lots
        gainSellLoop position.current_price sorted_remaining s1
      else s1
    some ⟨position.symbol, s2.selected_lots, s2.total_proceeds,
      s2.total_tax_impact⟩

/-- Modelled from the spec: the tax contribution the specification assigns
to a sold lot, `(proceeds_price - cost_basis) * shares * (long_term_rate if
is_long_term else short_term_rate)`. Stated for comparison with the code's
accounting. -/
def specLotTaxImpact (proceeds_price cost_basis shares : ℚ)
    (is_long_term : Bool) : ℚ :=
  (proceeds_price - cost_basis) * shares *
    (if is_long_term then long_term_tax_rate else short_term_tax_rate)

/-- Result of the external `scipy.optimize.minimize` call: final iterate
`x`, objective value `fun`, convergence flag `success`. -/
structure MinimizeResult where
  xs : List ℚ
  objValue : ℚ
  success : Bool

/-- The dictionary built by the `except` branch of `_optimize_portfolio`
(`boodle_loot/analysis/portfolio.py` lines 166-172): empty weight mapping,
Sharpe `0.0`, `optimization_success = False`. -/
def optimizationFallback : List (String × ℚ) × ℚ × Bool := ([], 0, false)

/-- `_optimize_portfolio` of `boodle_loot/analysis/portfolio.py`
(lines 131-172). The scipy solver is an external collaborator, passed as an
oracle that either raises (`Except.error`) or returns a `MinimizeResult`.
With zero assets the construction of the initial guess `np.array([1/n]*n)`
itself raises `ZeroDivisionError`; that exception and any solver exception
are caught by the `except` block, which returns the fallback dictionary.
On a normal return the reported weights zip the column names with the
solver's final iterate `result.x` and the flag is `bool(result.success)`. -/
def optimize_portfolio (columns : List String)
    (minimize : List ℚ → Except Unit MinimizeResult) :
    List (String × ℚ) × ℚ × Bool :=
  if columns.length = 0 then optimizationFallback
  else
    match minimize
        (List.replicate columns.length (1 / (columns.length : ℚ))) with
    | .error _ => optimizationFallback
    | .ok r => (columns.zip r.xs, -r.objValue, r.success)

/-- Modelled from the spec: the initial equal-weight vector, `1/n` per
asset, which the spec says is returned when the optimizer fails. -/
def specEqualWeightVector (columns : List String) : List (String × ℚ) :=
  columns.map (fun c => (c, 1 / (columns.length : ℚ)))

/-- `np.percentile(xs, q)` with numpy's default linear-interpolation
method: virtual index `(n-1)*q/100`, linear interpolation between the
neighbouring order statistics. -/
def percentile (xs : List ℚ) (q : ℚ) : ℚ :=
  let s := sortByKey id xs
  let h := ((s.length : ℚ) - 1) * q / 100
  s.getD (⌊h⌋).toNat 0 +
    (h - ⌊h⌋) * (s.getD (⌈h⌉).toNat 0 - s.getD (⌊h⌋).toNat 0)

/-- Portfolio daily returns `returns_df.dot(weights)` after the weight
normalization of `_calculate_portfolio_risk`
(`boodle_loot/analysis/portfolio.py` lines 96-100): weights divided by
their sum when the sum is nonzero. -/
def portfolioReturns (returnRows : List (List ℚ)) (weights : List ℚ) :
    List ℚ :=
  let w := if weights.sum ≠ 0 then weights.map (· / weights.sum)
    else weights
  returnRows.map (fun row => ((row.zip w).map (fun p => p.1 * p.2)).sum)

/-- The `var_95` field computed by `_calculate_portfolio_risk`
(`boodle_loot/analysis/portfolio.py` line 118):
`float(np.percentile(portfolio_returns, 5))`, with no absolute value
taken. -/
def portfolio_var_95 (returnRows : List (List ℚ)) (weights : List ℚ) : ℚ :=
  percentile (portfolioReturns returnRows weights) 5

/-- The `historical_var_95` field of `_calculate_var_metrics`
(`boodle_loot/analysis/risk.py` lines 131-165): the mock value `0.02` for
fewer than two observations, otherwise
`float(abs(np.percentile(returns, 5)))`. -/
def historical_var_95 (returns : List ℚ) : ℚ :=
  if returns.length < 2 then 2 / 100
  else |percentile returns 5|

/-- A row of the options frame consumed by `_analyze_volatility_skew`
(`backend/analysis/options.py`), projected to the columns it reads. -/
structure SkewRow where
  moneyness : ℚ
  option_type : String
  implied_volatility : ℚ
deriving DecidableEq

/-- pandas `Series.mean`: `NaN` on an empty selection, modelled as
`none`. -/
def seriesMean (xs : List ℚ) : Option ℚ :=
  if xs.isEmpty then none else some (xs.sum / (xs.length : ℚ))

/-- ATM volatility of one expiration (`backend/analysis/options.py`
line 391): mean implied volatility of the rows with `|moneyness| < 0.01`. -/
def atm_vol (rows : List SkewRow) : Option ℚ :=
  seriesMean ((rows.filter (fun r => decide (|r.moneyness| < 1 / 100))).map
    (fun r => r.implied_volatility))

/-- OTM put volatility (lines 394-395): mean implied volatility of the
puts with `moneyness < -0.05`. -/
def otm_put_vol (rows : List SkewRow) : Option ℚ :=
  seriesMean ((rows.filter (fun r =>
    decide (r.moneyness < -(5 / 100)) &&
      decide (r.option_type = "put"))).map (fun r => r.implied_volatility))

/-- OTM call volatility (lines 396-397): mean implied volatility of the
calls with `moneyness > 0.05`. -/
def otm_call_vol (rows : List SkewRow) : Option ℚ :=
  seriesMean ((rows.filter (fun r =>
    decide (5 / 100 < r.moneyness) &&
      decide (r.option_type = "call"))).map (fun r => r.implied_volatility))

/-- The `put_skew` entry of `_analyze_volatility_skew` (line 403):
`float(otm_put_vol - atm_vol) if not np.isnan(otm_put_vol) else 0`. An
empty OTM-put bucket is therefore reported as the number `0`; a non-empty
OTM-put bucket combined with an empty ATM bucket propagates `NaN`
(`none`). -/
def put_skew (rows : List SkewRow) : Option ℚ :=
  match otm_put_vol rows with
  | none => some 0
  | some v => (atm_vol rows).map (fun a => v - a)

/-- The `call_skew` entry of `_analyze_volatility_skew` (line 404),
symmetric to `put_skew`. -/
def call_skew (rows : List SkewRow) : Option ℚ :=
  match otm_call_vol rows with
  | none => some 0
  | some v => (atm_vol rows).map (fun a => v - a)

/-- An option dict of the synthetic chain of
`boodle_loot/analysis/options.py`, projected to the only field
`_calculate_put_call_ratio` reads. -/
structure BoodleOption where
  volume : ℤ
deriving DecidableEq

/-- Total call volume summed by the boodle_loot
`_calculate_put_call_ratio`. -/
def boodleCallVolume (calls : List BoodleOption) : ℤ :=
  (calls.map (fun c => c.volume)).sum

/-- Total put volume summed by the boodle_loot `_calculate_put_call_ratio`. -/
def boodlePutVolume (puts : List BoodleOption) : ℤ :=
  (puts.map (fun p => p.volume)).sum

/-- `_calculate_put_call_ratio` of `boodle_loot/analysis/options.py`
(lines 195-199): `put_volume / call_volume if call_volume > 0 else 1.0`. -/
def put_call_ratio_boodle (calls puts : List BoodleOption) : ℚ :=
  if 0 < boodleCallVolume calls then
    (boodlePutVolume puts : ℚ) / (boodleCallVolume calls : ℚ)
  else 1

/-- A row of the options frame of `backend/analysis/options.py`, projected
to the columns `_calculate_put_call_ratio` reads. -/
structure ChainRow where
  option_type : String
  volume : ℤ
deriving DecidableEq

/-- Total call volume summed by the backend `_calculate_put_call_ratio`. -/
def backendCallVolume (rows : List ChainRow) : ℤ :=
  ((rows.filter (fun r => decide (r.option_type = "call"))).map
    (fun r => r.volume)).sum

/-- Total put volume summed by the backend `_calculate_put_call_ratio`. -/
def backendPutVolume (rows : List ChainRow) : ℤ :=
  ((rows.filter (fun r => decide (r.option_type = "put"))).map
    (fun r => r.volume)).sum

/-- `_calculate_put_call_ratio` of `backend/analysis/options.py`
(lines 278-282): `put_volume / call_volume if call_volume > 0 else 0`. -/
def put_call_ratio_backend (rows : List ChainRow) : ℚ :=
  if 0 < backendCallVolume rows then
    (backendPutVolume rows : ℚ) / (backendCallVolume rows : ℚ)
  else 0

end InvestSage

namespace InvestSage

theorem normPdf_nonneg (x : ℝ) : 0 ≤ normPdf x :=
  ProbabilityTheory.gaussianPDFReal_nonneg 0 1 x

theorem normPdf_neg (x : ℝ) : normPdf (-x) = normPdf x := by
  simp [normPdf, ProbabilityTheory.gaussianPDFReal, neg_sq]

theorem integrable_normPdf : Integrable normPdf :=
  ProbabilityTheory.integrable_gaussianPDFReal 0 1

theorem integral_normPdf : ∫ x, normPdf x = 1 :=
  ProbabilityTheory.integral_gaussianPDFReal_eq_one 0 one_ne_zero

theorem normCdf_nonneg (x : ℝ) : 0 ≤ normCdf x :=
  setIntegral_nonneg measurableSet_Iic fun t _ => normPdf_nonneg t

theorem normCdf_le_one (x : ℝ) : normCdf x ≤ 1 := by
  have h := setIntegral_le_integral (μ := volume) (s := Iic x)
    integrable_normPdf (Filter.Eventually.of_forall normPdf_nonneg)
  simpa [normCdf, integral_normPdf] using h

theorem normCdf_add_neg (x : ℝ) : normCdf x + normCdf (-x) = 1 := by
  have hneg : normCdf (-x) = ∫ t in Ioi x, normPdf t := by
    rw [normCdf, ← integral_comp_neg_Ioi]
    congr 1
    funext t
    exact normPdf_neg t
  rw [normCdf, hneg]
  have h := integral_add_compl (μ := volume) (measurableSet_Iic (a := x))
    integrable_normPdf
  rwa [compl_Iic, integral_normPdf] at h

/-- C1: for every spot `S > 0`, strike `K > 0`, time-to-expiry `T > 0`,
volatility `sigma > 0` and rate `r`, the call and put prices returned by
`_calculate_option_price` for the same inputs satisfy put-call parity:
`call - put = S - K*exp(-r*T)`, within a tolerance of `1e-6` (the identity
is in fact exact in the real-valued semantics). -/
theorem putCallParity_C1 (S K T r sigma : ℝ) (hS : 0 < S) (hK : 0 < K)
    (hT : 0 < T) (hsigma : 0 < sigma) :
    |calculate_option_price S K T r sigma .call -
        calculate_option_price S K T r sigma .put -
      (S - K * Real.exp (-r * T))| ≤ 1 / 1000000 := by
  have h1 := normCdf_add_neg (calculate_d1 S K T r sigma)
  have h2 := normCdf_add_neg (calculate_d2 S K T r sigma)
  have key : calculate_option_price S K T r sigma .call -
      calculate_option_price S K T r sigma .put -
      (S - K * Real.exp (-r * T)) = 0 := by
    simp only [calculate_option_price]
    linear_combination S * h1 - K * Real.exp (-r * T) * h2
  rw [key, abs_zero]
  norm_num

/-- Witness for C1 at `S = 100`, `K = 95`, `T = 1`, `r = 3/100`,
`sigma = 1/5`. -/
theorem putCallParity_C1_witness :
    (0 : ℝ) < 100 ∧ (0 : ℝ) < 95 ∧ (0 : ℝ) < 1 ∧ (0 : ℝ) < 1 / 5 ∧
    |calculate_option_price 100 95 1 (3 / 100) (1 / 5) .call -
        calculate_option_price 100 95 1 (3 / 100) (1 / 5) .put -
      (100 - 95 * Real.exp (-(3 / 100) * 1))| ≤ 1 / 1000000 :=
  ⟨by norm_num, by norm_num, by norm_num, by norm_num,
    putCallParity_C1 100 95 1 (3 / 100) (1 / 5)
      (by norm_num) (by norm_num) (by norm_num) (by norm_num)⟩

/-- C2: for every valid input (`S > 0`, `K > 0`, `T > 0`, `sigma > 0`), the
Greeks returned by `_calculate_greeks` (boodle_loot) and by the backend's
`_calculate_delta`/`_calculate_vega` satisfy `gamma ≥ 0`, `vega ≥ 0`,
call delta in `[0, 1]` and put delta in `[-1, 0]`. -/
theorem greekSigns_C2 (S K T r sigma : ℝ) (hS : 0 < S) (hK : 0 < K)
    (hT : 0 < T) (hsigma : 0 < sigma) :
    (0 ≤ (calculate_greeks S K T r sigma .call).gamma ∧
      0 ≤ (calculate_greeks S K T r sigma .put).gamma) ∧
    (0 ≤ (calculate_greeks S K T r sigma .call).vega ∧
      0 ≤ (calculate_greeks S K T r sigma .put).vega ∧
      0 ≤ backend_vega S K T sigma) ∧
    ((calculate_greeks S K T r sigma .call).delta ∈ Icc (0 : ℝ) 1 ∧
      backend_delta S K T sigma .call ∈ Icc (0 : ℝ) 1) ∧
    ((calculate_greeks S K T r sigma .put).delta ∈ Icc (-1 : ℝ) 0 ∧
      backend_delta S K T sigma .put ∈ Icc (-1 : ℝ) 0) := by
  have hgamma : 0 ≤ normPdf (calculate_d1 S K T r sigma) /
      (S * sigma * Real.sqrt T) :=
    div_nonneg (normPdf_nonneg _)
      (by positivity)
  have hvega : 0 ≤ S * Real.sqrt T * normPdf (calculate_d1 S K T r sigma) :=
    mul_nonneg (by positivity) (normPdf_nonneg _)
  refine ⟨⟨hgamma, hgamma⟩,
    ⟨hvega, hvega,
      mul_nonneg (by positivity) (normPdf_nonneg _)⟩,
    ⟨⟨normCdf_nonneg _, normCdf_le_one _⟩,
      ⟨normCdf_nonneg _, normCdf_le_one _⟩⟩,
    ⟨?_, ?_⟩⟩
  · have h0 := normCdf_nonneg (calculate_d1 S K T r sigma)
    have h1 := normCdf_le_one (calculate_d1 S K T r sigma)
    refine ⟨?_, ?_⟩
    · show (-1 : ℝ) ≤ normCdf (calculate_d1 S K T r sigma) - 1
      linarith
    · show normCdf (calculate_d1 S K T r sigma) - 1 ≤ 0
      linarith
  · have h0 := normCdf_nonneg (backend_d1 S K T sigma)
    have h1 := normCdf_le_one (backend_d1 S K T sigma)
    refine ⟨?_, ?_⟩
    · show (-1 : ℝ) ≤ normCdf (backend_d1 S K T sigma) - 1
      linarith
    · show normCdf (backend_d1 S K T sigma) - 1 ≤ 0
      linarith

/-- C5 (code bug): with volatility zero (so `sigma*sqrt(T) = 0`) the pricing
engine does not raise a `DomainError` (no such error type exists anywhere in
the repository); numpy turns the division by zero in `d1` into `+inf`, the
normal CDF maps it to `1`, and at `S = K = 100`, `T = 1/2`, `r = 3/100`,
`sigma = 0` the call branch silently returns the finite value
`S - K*exp(-r*T)`. -/
theorem sigmaZeroSilentValue_C5 :
    calculate_option_price_py 100 100 (1 / 2) (3 / 100) 0 .call =
      .val (100 - 100 * Real.exp (-(3 / 100) * (1 / 2))) := by
  have hlog : Real.log ((100 : ℝ) / 100) = 0 := by
    norm_num
  have hnum : Real.log ((100 : ℝ) / 100) +
      ((3 : ℝ) / 100 + (0 : ℝ) ^ 2 / 2) * (1 / 2) = 3 / 200 := by
    rw [hlog]; norm_num
  simp only [calculate_option_price_py, zero_mul, hnum, pyDiv, pySub, pyMul,
    pyCdf]
  norm_num

/-- Witness for C2 at `S = 100`, `K = 100`, `T = 1`, `r = 3/100`,
`sigma = 1/5`. -/
theorem greekSigns_C2_witness :
    (0 : ℝ) < 100 ∧ (0 : ℝ) < 1 ∧ (0 : ℝ) < 1 / 5 ∧
    ((0 ≤ (calculate_greeks 100 100 1 (3 / 100) (1 / 5) .call).gamma ∧
       0 ≤ (calculate_greeks 100 100 1 (3 / 100) (1 / 5) .put).gamma) ∧
     (0 ≤ (calculate_greeks 100 100 1 (3 / 100) (1 / 5) .call).vega ∧
       0 ≤ (calculate_greeks 100 100 1 (3 / 100) (1 / 5) .put).vega ∧
       0 ≤ backend_vega 100 100 1 (1 / 5)) ∧
     ((calculate_greeks 100 100 1 (3 / 100) (1 / 5) .call).delta ∈
         Icc (0 : ℝ) 1 ∧
       backend_delta 100 100 1 (1 / 5) .call ∈ Icc (0 : ℝ) 1) ∧
     ((calculate_greeks 100 100 1 (3 / 100) (1 / 5) .put).delta ∈
         Icc (-1 : ℝ) 0 ∧
       backend_delta 100 100 1 (1 / 5) .put ∈ Icc (-1 : ℝ) 0)) :=
  ⟨by norm_num, by norm_num, by norm_num,
    greekSigns_C2 100 100 1 (3 / 100) (1 / 5)
      (by norm_num) (by norm_num) (by norm_num) (by norm_num)⟩

theorem sortByKey_pair {α : Type} (key : α → ℚ) (a b : α) :
    sortByKey key [a, b] = if key a ≤ key b then [a, b] else [b, a] := by
  by_cases h : key a ≤ key b <;> simp [sortByKey, insertSorted, h]

theorem lossHarvestLoop_cons_skip (price : ℚ) (lot : TaxLot)
    (rest : List TaxLot) (s : SellState) (hno : ¬price < lot.cost_basis)
    (hpos : ¬s.shares_to_sell ≤ 0) :
    lossHarvestLoop price (lot :: rest) s = lossHarvestLoop price rest s := by
  simp [lossHarvestLoop, hno, hpos]

theorem lossHarvestLoop_cons_take_all (price : ℚ) (lot : TaxLot)
    (rest : List TaxLot) (s : SellState) (hl : price < lot.cost_basis)
    (hmin : s.shares_to_sell ≤ lot.shares) (hpos : 0 < s.shares_to_sell) :
    lossHarvestLoop price (lot :: rest) s =
      ⟨0, s.selected_lots ++
          [⟨s.shares_to_sell, lot.cost_basis, lot.is_long_term⟩],
        s.total_proceeds + s.shares_to_sell * price,
        s.total_tax_impact +
          (lot.cost_basis - price) * s.shares_to_sell * lotRate lot⟩ := by
  have hsh : min s.shares_to_sell lot.shares = s.shares_to_sell :=
    min_eq_left hmin
  simp [lossHarvestLoop, hl, hsh, hpos, sub_self]

/-- C6: for a position holding exactly one loss lot and one gain lot, when
the required liquidation `target / price` is fewer shares than the loss lot
holds, `_suggest_tax_efficient_sell` consumes shares only from the loss lot
and leaves the gain lot untouched. -/
theorem taxLossFirst_C6 (sym : String) (price : ℚ) (lossLot gainLot : TaxLot)
    (hprice : 0 < price) (hlb : 0 < lossLot.cost_basis)
    (hgb : 0 < gainLot.cost_basis) (hloss : price < lossLot.cost_basis)
    (hgain : gainLot.cost_basis < price) (target ts : ℚ)
    (htpos : 0 < target) (hsmall : target / price < lossLot.shares)
    (lots : List TaxLot)
    (horder : lots = [lossLot, gainLot] ∨ lots = [gainLot, lossLot]) :
    suggest_tax_efficient_sell ⟨sym, price, lots⟩ target ts =
      some ⟨sym,
        [⟨target / price, lossLot.cost_basis, lossLot.is_long_term⟩],
        target / price * price,
        (lossLot.cost_basis - price) * (target / price) * lotRate lossLot⟩ := by
  have hkl : 0 < (lossLot.cost_basis - price) / lossLot.cost_basis :=
    div_pos (sub_pos.mpr hloss) hlb
  have hkg : (gainLot.cost_basis - price) / gainLot.cost_basis < 0 :=
    div_neg_of_neg_of_pos (sub_neg.mpr hgain) hgb
  have hsts : 0 < target / price := div_pos htpos hprice
  have hsorted : sortByKey
      (fun lot => (lot.cost_basis - price) / lot.cost_basis) lots =
      [gainLot, lossLot] := by
    rcases horder with h | h <;> subst h <;> rw [sortByKey_pair]
    · rw [if_neg (not_le.mpr (lt_trans hkg hkl))]
    · rw [if_pos (le_of_lt (lt_trans hkg hkl))]
  have hne : lots.isEmpty = false := by
    rcases horder with h | h <;> simp [h]
  have hloop : lossHarvestLoop price [gainLot, lossLot]
      ⟨target / price, [], 0, 0⟩ =
      ⟨0, [⟨target / price, lossLot.cost_basis, lossLot.is_long_term⟩],
        target / price * price,
        (lossLot.cost_basis - price) * (target / price) * lotRate lossLot⟩ := by
    rw [lossHarvestLoop_cons_skip price gainLot [lossLot] _
      (lt_asymm hgain) (not_le.mpr hsts)]
    rw [lossHarvestLoop_cons_take_all price lossLot [] _ hloss
      (le_of_lt hsmall) hsts]
    simp
  simp only [suggest_tax_efficient_sell, hne, Bool.false_eq_true,
    if_false, hsorted, hloop]
  norm_num

/-- Witness for C6: price `100`, loss lot of `10` shares at basis `120`,
gain lot of `5` shares at basis `80`, selling `500` of value (5 shares). -/
theorem taxLossFirst_C6_witness :
    suggest_tax_efficient_sell
        ⟨"X", 100, [⟨10, 120, true⟩, ⟨5, 80, false⟩]⟩ 500 (1 / 2) =
      some ⟨"X", [⟨500 / 100, 120, true⟩], 500 / 100 * 100,
        (120 - 100) * (500 / 100) * lotRate ⟨10, 120, true⟩⟩ :=
  taxLossFirst_C6 "X" 100 ⟨10, 120, true⟩ ⟨5, 80, false⟩
    (by norm_num) (by norm_num) (by norm_num) (by norm_num) (by norm_num)
    500 (1 / 2) (by norm_num) (by norm_num)
    [⟨10, 120, true⟩, ⟨5, 80, false⟩] (Or.inl rfl)

theorem insertSorted_perm {α : Type} (key : α → ℚ) (x : α) (l : List α) :
    (insertSorted key x l).Perm (x :: l) := by
  induction l with
  | nil => simp [insertSorted]
  | cons y ys ih =>
    by_cases h : key x ≤ key y
    · simp [insertSorted, h]
    · simp only [insertSorted, if_neg h]
      exact (List.Perm.cons y ih).trans (List.Perm.swap x y ys)

theorem sortByKey_perm {α : Type} (key : α → ℚ) (l : List α) :
    (sortByKey key l).Perm l := by
  induction l with
  | nil => simp [sortByKey]
  | cons x xs ih =>
    exact (insertSorted_perm key x (sortByKey key xs)).trans
      (List.Perm.cons x ih)

theorem sum_map_shares_nonneg (L : List TaxLot)
    (hL : ∀ lot ∈ L, 0 ≤ lot.shares) : 0 ≤ (L.map TaxLot.shares).sum :=
  List.sum_nonneg (fun x hx => by
    obtain ⟨lot, hlot, rfl⟩ := List.mem_map.mp hx
    exact hL lot hlot)

theorem sum_map_filter_split (p : TaxLot → Bool) (L : List TaxLot) :
    ((L.filter p).map TaxLot.shares).sum +
      ((L.filter (fun a => !p a)).map TaxLot.shares).sum =
      (L.map TaxLot.shares).sum := by
  induction L with
  | nil => simp
  | cons x xs ih =>
    by_cases h : p x = true
    · simp [List.filter_cons, h]
      linarith
    · have h' : p x = false := by
        cases hpx : p x
        · rfl
        · exact absurd hpx h
      simp [List.filter_cons, h']
      linarith

theorem lossHarvestLoop_cons_noloss (price : ℚ) (lot : TaxLot)
    (rest : List TaxLot) (s : SellState)
    (hno : ¬price < lot.cost_basis) :
    lossHarvestLoop price (lot :: rest) s =
      if s.shares_to_sell ≤ 0 then s else lossHarvestLoop price rest s := by
  simp [lossHarvestLoop, hno]

theorem lossHarvestLoop_cons_nomin (price : ℚ) (lot : TaxLot)
    (rest : List TaxLot) (s : SellState)
    (hsh : ¬0 < min s.shares_to_sell lot.shares) :
    lossHarvestLoop price (lot :: rest) s =
      if s.shares_to_sell ≤ 0 then s else lossHarvestLoop price rest s := by
  by_cases hc : price < lot.cost_basis <;> simp [lossHarvestLoop, hc, hsh]

theorem lossHarvestLoop_cons_take (price : ℚ) (lot : TaxLot)
    (rest : List TaxLot) (s : SellState) (hc : price < lot.cost_basis)
    (hsh : 0 < min s.shares_to_sell lot.shares) :
    lossHarvestLoop price (lot :: rest) s =
      if s.shares_to_sell - min s.shares_to_sell lot.shares ≤ 0 then
        ⟨s.shares_to_sell - min s.shares_to_sell lot.shares,
          s.selected_lots ++ [⟨min s.shares_to_sell lot.shares,
            lot.cost_basis, lot.is_long_term⟩],
          s.total_proceeds + min s.shares_to_sell lot.shares * price,
          s.total_tax_impact + (lot.cost_basis - price) *
            min s.shares_to_sell lot.shares * lotRate lot⟩
      else lossHarvestLoop price rest
        ⟨s.shares_to_sell - min s.shares_to_sell lot.shares,
          s.selected_lots ++ [⟨min s.shares_to_sell lot.shares,
            lot.cost_basis, lot.is_long_term⟩],
          s.total_proceeds + min s.shares_to_sell lot.shares * price,
          s.total_tax_impact + (lot.cost_basis - price) *
            min s.shares_to_sell lot.shares * lotRate lot⟩ := by
  simp [lossHarvestLoop, hc, hsh]

theorem gainSellLoop_cons_nomin (price : ℚ) (lot : TaxLot)
    (rest : List TaxLot) (s : SellState)
    (hsh : ¬0 < min s.shares_to_sell lot.shares) :
    gainSellLoop price (lot :: rest) s =
      if s.shares_to_sell ≤ 0 then s else gainSellLoop price rest s := by
  simp [gainSellLoop, hsh]

theorem gainSellLoop_cons_take (price : ℚ) (lot : TaxLot)
    (rest : List TaxLot) (s : SellState)
    (hsh : 0 < min s.shares_to_sell lot.shares) :
    gainSellLoop price (lot :: rest) s =
      if s.shares_to_sell - min s.shares_to_sell lot.shares ≤ 0 then
        ⟨s.shares_to_sell - min s.shares_to_sell lot.shares,
          s.selected_lots ++ [⟨min s.shares_to_sell lot.shares,
            lot.cost_basis, lot.is_long_term⟩],
          s.total_proceeds + min s.shares_to_sell lot.shares * price,
          s.total_tax_impact + (price - lot.cost_basis) *
            min s.shares_to_sell lot.shares * lotRate lot⟩
      else gainSellLoop price rest
        ⟨s.shares_to_sell - min s.shares_to_sell lot.shares,
          s.selected_lots ++ [⟨min s.shares_to_sell lot.shares,
            lot.cost_basis, lot.is_long_term⟩],
          s.total_proceeds + min s.shares_to_sell lot.shares * price,
          s.total_tax_impact + (price - lot.cost_basis) *
            min s.shares_to_sell lot.shares * lotRate lot⟩ := by
  simp [gainSellLoop, hsh]

theorem lossHarvestLoop_sel_mem (price : ℚ) (L : List TaxLot) :
    ∀ s : SellState, ∀ e ∈ (lossHarvestLoop price L s).selected_lots,
      e ∈ s.selected_lots ∨ ∃ lot ∈ L, e.shares ≤ lot.shares ∧
        e.cost_basis = lot.cost_basis ∧
        e.is_long_term = lot.is_long_term := by
  induction L with
  | nil =>
    intro s e he
    exact Or.inl (by simpa [lossHarvestLoop] using he)
  | cons lot rest ih =>
    intro s e he
    have hstep : ∀ e ∈ (s.selected_lots ++
        [⟨min s.shares_to_sell lot.shares, lot.cost_basis,
          lot.is_long_term⟩] : List SelectedLot),
        e ∈ s.selected_lots ∨ ∃ l ∈ lot :: rest, e.shares ≤ l.shares ∧
          e.cost_basis = l.cost_basis ∧ e.is_long_term = l.is_long_term := by
      intro e he
      rcases List.mem_append.mp he with h | h
      · exact Or.inl h
      · refine Or.inr ⟨lot, List.mem_cons_self lot rest, ?_⟩
        rw [List.mem_singleton.mp h]
        exact ⟨min_le_right _ _, rfl, rfl⟩
    by_cases hc : price < lot.cost_basis
    · by_cases hsh : 0 < min s.shares_to_sell lot.shares
      · rw [lossHarvestLoop_cons_take price lot rest s hc hsh] at he
        by_cases hbr : s.shares_to_sell - min s.shares_to_sell lot.shares ≤ 0
        · rw [if_pos hbr] at he
          exact hstep e he
        · rw [if_neg hbr] at he
          rcases ih _ e he with h | ⟨l, hl, hp⟩
          · exact hstep e h
          · exact Or.inr ⟨l, List.mem_cons_of_mem _ hl, hp⟩
      · rw [lossHarvestLoop_cons_nomin price lot rest s hsh] at he
        by_cases hbr : s.shares_to_sell ≤ 0
        · rw [if_pos hbr] at he
          exact Or.inl he
        · rw [if_neg hbr] at he
          rcases ih _ e he with h | ⟨l, hl, hp⟩
          · exact Or.inl h
          · exact Or.inr ⟨l, List.mem_cons_of_mem _ hl, hp⟩
    · rw [lossHarvestLoop_cons_noloss price lot rest s hc] at he
      by_cases hbr : s.shares_to_sell ≤ 0
      · rw [if_pos hbr] at he
        exact Or.inl he
      · rw [if_neg hbr] at he
        rcases ih _ e he with h | ⟨l, hl, hp⟩
        · exact Or.inl h
        · exact Or.inr ⟨l, List.mem_cons_of_mem _ hl, hp⟩

theorem gainSellLoop_sel_mem (price : ℚ) (L : List TaxLot) :
    ∀ s : SellState, ∀ e ∈ (gainSellLoop price L s).selected_lots,
      e ∈ s.selected_lots ∨ ∃ lot ∈ L, e.shares ≤ lot.shares ∧
        e.cost_basis = lot.cost_basis ∧
        e.is_long_term = lot.is_long_term := by
  induction L with
  | nil =>
    intro s e he
    exact Or.inl (by simpa [gainSellLoop] using he)
  | cons lot rest ih =>
    intro s e he
    have hstep : ∀ e ∈ (s.selected_lots ++
        [⟨min s.shares_to_sell lot.shares, lot.cost_basis,
          lot.is_long_term⟩] : List SelectedLot),
        e ∈ s.selected_lots ∨ ∃ l ∈ lot :: rest, e.shares ≤ l.shares ∧
          e.cost_basis = l.cost_basis ∧ e.is_long_term = l.is_long_term := by
      intro e he
      rcases List.mem_append.mp he with h | h
      · exact Or.inl h
      · refine Or.inr ⟨lot, List.mem_cons_self lot rest, ?_⟩
        rw [List.mem_singleton.mp h]
        exact ⟨min_le_right _ _, rfl, rfl⟩
    by_cases hsh : 0 < min s.shares_to_sell lot.shares
    · rw [gainSellLoop_cons_take price lot rest s hsh] at he
      by_cases hbr : s.shares_to_sell - min s.shares_to_sell lot.shares ≤ 0
      · rw [if_pos hbr] at he
        exact hstep e he
      · rw [if_neg hbr] at he
        rcases ih _ e he with h | ⟨l, hl, hp⟩
        · exact hstep e h
        · exact Or.inr ⟨l, List.mem_cons_of_mem _ hl, hp⟩
    · rw [gainSellLoop_cons_nomin price lot rest s hsh] at he
      by_cases hbr : s.shares_to_sell ≤ 0
      · rw [if_pos hbr] at he
        exact Or.inl he
      · rw [if_neg hbr] at he
        rcases ih _ e he with h | ⟨l, hl, hp⟩
        · exact Or.inl h
        · exact Or.inr ⟨l, List.mem_cons_of_mem _ hl, hp⟩

theorem lossHarvestLoop_sum (price : ℚ) (L : List TaxLot) :
    ∀ s : SellState, (∀ lot ∈ L, 0 ≤ lot.shares) →
      ((lossHarvestLoop price L s).selected_lots.map
        SelectedLot.shares).sum ≤
      (s.selected_lots.map SelectedLot.shares).sum +
        ((L.filter (fun lot => decide (price < lot.cost_basis))).map
          TaxLot.shares).sum := by
  induction L with
  | nil =>
    intro s _
    simp [lossHarvestLoop]
  | cons lot rest ih =>
    intro s hL
    have hrest : ∀ l ∈ rest, 0 ≤ l.shares :=
      fun l hl => hL l (List.mem_cons_of_mem _ hl)
    have hlot : 0 ≤ lot.shares := hL lot (List.mem_cons_self _ _)
    have hfrest : 0 ≤ ((rest.filter
        (fun lot => decide (price < lot.cost_basis))).map
        TaxLot.shares).sum :=
      sum_map_shares_nonneg _ (fun l hl => hrest l (List.mem_of_mem_filter hl))
    by_cases hc : price < lot.cost_basis
    · have hfc : (lot :: rest).filter
          (fun lot => decide (price < lot.cost_basis)) =
          lot :: rest.filter (fun lot => decide (price < lot.cost_basis)) := by
        simp [List.filter_cons, hc]
      rw [hfc]
      by_cases hsh : 0 < min s.shares_to_sell lot.shares
      · have hminle : min s.shares_to_sell lot.shares ≤ lot.shares :=
          min_le_right _ _
        rw [lossHarvestLoop_cons_take price lot rest s hc hsh]
        by_cases hbr : s.shares_to_sell - min s.shares_to_sell lot.shares ≤ 0
        · rw [if_pos hbr]
          simp only [List.map_append, List.sum_append, List.map_cons,
            List.sum_cons, List.map_nil, List.sum_nil]
          linarith
        · rw [if_neg hbr]
          have h2 := ih ⟨s.shares_to_sell - min s.shares_to_sell lot.shares,
            s.selected_lots ++ [⟨min s.shares_to_sell lot.shares,
              lot.cost_basis, lot.is_long_term⟩],
            s.total_proceeds + min s.shares_to_sell lot.shares * price,
            s.total_tax_impact + (lot.cost_basis - price) *
              min s.shares_to_sell lot.shares * lotRate lot⟩ hrest
          simp only [List.map_append, List.sum_append, List.map_cons,
            List.sum_cons, List.map_nil, List.sum_nil] at h2 ⊢
          linarith
      · rw [lossHarvestLoop_cons_nomin price lot rest s hsh]
        simp only [List.map_cons, List.sum_cons]
        by_cases hbr : s.shares_to_sell ≤ 0
        · rw [if_pos hbr]
          linarith
        · rw [if_neg hbr]
          have h2 := ih s hrest
          linarith
    · have hfc : (lot :: rest).filter
          (fun lot => decide (price < lot.cost_basis)) =
          rest.filter (fun lot => decide (price < lot.cost_basis)) := by
        simp [List.filter_cons, hc]
      rw [hfc, lossHarvestLoop_cons_noloss price lot rest s hc]
      by_cases hbr : s.shares_to_sell ≤ 0
      · rw [if_pos hbr]
        linarith
      · rw [if_neg hbr]
        exact ih s hrest

theorem gainSellLoop_sum (price : ℚ) (L : List TaxLot) :
    ∀ s : SellState, (∀ lot ∈ L, 0 ≤ lot.shares) →
      ((gainSellLoop price L s).selected_lots.map SelectedLot.shares).sum ≤
      (s.selected_lots.map SelectedLot.shares).sum +
        (L.map TaxLot.shares).sum := by
  induction L with
  | nil =>
    intro s _
    simp [gainSellLoop]
  | cons lot rest ih =>
    intro s hL
    have hrest : ∀ l ∈ rest, 0 ≤ l.shares :=
      fun l hl => hL l (List.mem_cons_of_mem _ hl)
    have hlot : 0 ≤ lot.shares := hL lot (List.mem_cons_self _ _)
    have hfrest : 0 ≤ (rest.map TaxLot.shares).sum :=
      sum_map_shares_nonneg _ hrest
    simp only [List.map_cons, List.sum_cons]
    by_cases hsh : 0 < min s.shares_to_sell lot.shares
    · have hminle : min s.shares_to_sell lot.shares ≤ lot.shares :=
        min_le_right _ _
      rw [gainSellLoop_cons_take price lot rest s hsh]
      by_cases hbr : s.shares_to_sell - min s.shares_to_sell lot.shares ≤ 0
      · rw [if_pos hbr]
        simp only [List.map_append, List.sum_append, List.map_cons,
          List.sum_cons, List.map_nil, List.sum_nil]
        linarith
      · rw [if_neg hbr]
        have h2 := ih ⟨s.shares_to_sell - min s.shares_to_sell lot.shares,
          s.selected_lots ++ [⟨min s.shares_to_sell lot.shares,
            lot.cost_basis, lot.is_long_term⟩],
          s.total_proceeds + min s.shares_to_sell lot.shares * price,
          s.total_tax_impact + (price - lot.cost_basis) *
            min s.shares_to_sell lot.shares * lotRate lot⟩ hrest
        simp only [List.map_append, List.sum_append, List.map_cons,
          List.sum_cons, List.map_nil, List.sum_nil] at h2 ⊢
        linarith
    · rw [gainSellLoop_cons_nomin price lot rest s hsh]
      by_cases hbr : s.shares_to_sell ≤ 0
      · rw [if_pos hbr]
        linarith
      · rw [if_neg hbr]
        have h2 := ih s hrest
        linarith

theorem finalState_spec (price sts0 : ℚ) (original sorted L2 : List TaxLot)
    (hperm : sorted.Perm original)
    (hsh : ∀ lot ∈ original, 0 ≤ lot.shares)
    (hL2perm : L2.Perm (sorted.filter
      (fun lot => decide (lot.cost_basis ≤ price)))) :
    (∀ e ∈ (if 0 < (lossHarvestLoop price sorted
          ⟨sts0, [], 0, 0⟩).shares_to_sell then
        gainSellLoop price L2 (lossHarvestLoop price sorted ⟨sts0, [], 0, 0⟩)
      else lossHarvestLoop price sorted ⟨sts0, [], 0, 0⟩).selected_lots,
      ∃ lot ∈ original, e.shares ≤ lot.shares ∧
        e.cost_basis = lot.cost_basis ∧ e.is_long_term = lot.is_long_term) ∧
    ((if 0 < (lossHarvestLoop price sorted ⟨sts0, [], 0, 0⟩).shares_to_sell
        then gainSellLoop price L2
          (lossHarvestLoop price sorted ⟨sts0, [], 0, 0⟩)
        else lossHarvestLoop price sorted
          ⟨sts0, [], 0, 0⟩).selected_lots.map SelectedLot.shares).sum ≤
      (original.map TaxLot.shares).sum := by
  have hsorted_sh : ∀ lot ∈ sorted, 0 ≤ lot.shares :=
    fun lot h => hsh _ (hperm.mem_iff.mp h)
  have hL2sh : ∀ lot ∈ L2, 0 ≤ lot.shares := fun lot h =>
    hsorted_sh _ (List.mem_of_mem_filter (hL2perm.mem_iff.mp h))
  have h1mem := lossHarvestLoop_sel_mem price sorted ⟨sts0, [], 0, 0⟩
  have h1sum := lossHarvestLoop_sum price sorted ⟨sts0, [], 0, 0⟩ hsorted_sh
  simp only [List.map_nil, List.sum_nil, zero_add] at h1sum
  have hsplit := sum_map_filter_split
    (fun lot => decide (price < lot.cost_basis)) sorted
  have hfun : (fun a : TaxLot => !decide (price < a.cost_basis)) =
      (fun a : TaxLot => decide (a.cost_basis ≤ price)) := by
    funext a
    by_cases h : price < a.cost_basis
    · simp [h, not_le.mpr h]
    · simp [h, not_lt.mp h]
  rw [hfun] at hsplit
  have hsorted_sum : (sorted.map TaxLot.shares).sum =
      (original.map TaxLot.shares).sum := (hperm.map _).sum_eq
  have hL2map : (L2.map TaxLot.shares).sum =
      ((sorted.filter (fun lot => decide (lot.cost_basis ≤ price))).map
        TaxLot.shares).sum := (hL2perm.map _).sum_eq
  constructor
  · intro e he
    by_cases hgt : 0 < (lossHarvestLoop price sorted
        ⟨sts0, [], 0, 0⟩).shares_to_sell
    · rw [if_pos hgt] at he
      rcases gainSellLoop_sel_mem price L2 _ e he with h | ⟨l, hl, hp⟩
      · rcases h1mem e h with h0 | ⟨l, hl, hp⟩
        · simp at h0
        · exact ⟨l, hperm.mem_iff.mp hl, hp⟩
      · exact ⟨l, hperm.mem_iff.mp
          (List.mem_of_mem_filter (hL2perm.mem_iff.mp hl)), hp⟩
    · rw [if_neg hgt] at he
      rcases h1mem e he with h0 | ⟨l, hl, hp⟩
      · simp at h0
      · exact ⟨l, hperm.mem_iff.mp hl, hp⟩
  · have hgain_nn : 0 ≤ ((sorted.filter
        (fun lot => decide (lot.cost_basis ≤ price))).map
        TaxLot.shares).sum :=
      sum_map_shares_nonneg _
        (fun l hl => hsorted_sh _ (List.mem_of_mem_filter hl))
    by_cases hgt : 0 < (lossHarvestLoop price sorted
        ⟨sts0, [], 0, 0⟩).shares_to_sell
    · rw [if_pos hgt]
      have h2sum := gainSellLoop_sum price L2
        (lossHarvestLoop price sorted ⟨sts0, [], 0, 0⟩) hL2sh
      rw [hL2map] at h2sum
      linarith
    · rw [if_neg hgt]
      linarith

/-- C10: the sell suggestion of `_suggest_tax_efficient_sell` never
oversells: every selected entry takes at most the share count of a lot of
the position with its cost basis and holding-period flag, and the total
shares taken never exceed the position's total shares. -/
theorem sellNeverOversells_C10 (pos : Position) (target ts : ℚ)
    (r : SellSuggestion)
    (hshares : ∀ lot ∈ pos.tax_lots, 0 ≤ lot.shares)
    (hr : suggest_tax_efficient_sell pos target ts = some r) :
    (∀ e ∈ r.lots, ∃ lot ∈ pos.tax_lots, e.shares ≤ lot.shares ∧
      e.cost_basis = lot.cost_basis ∧
      e.is_long_term = lot.is_long_term) ∧
    (r.lots.map SelectedLot.shares).sum ≤
      (pos.tax_lots.map TaxLot.shares).sum := by
  by_cases hemp : pos.tax_lots.isEmpty
  · have hval : suggest_tax_efficient_sell pos target ts = none := by
      unfold suggest_tax_efficient_sell
      rw [if_pos hemp]
    rw [hval] at hr
    exact Option.noConfusion hr
  · have key := finalState_spec pos.current_price
      (target / pos.current_price) pos.tax_lots
      (sortByKey (fun lot =>
        (lot.cost_basis - pos.current_price) / lot.cost_basis) pos.tax_lots)
      (sortByKey (fun lot =>
        (pos.current_price - lot.cost_basis) / lot.cost_basis *
          (if lot.is_long_term then 1 else 2) * ts)
        ((sortByKey (fun lot =>
          (lot.cost_basis - pos.current_price) / lot.cost_basis)
          pos.tax_lots).filter
          (fun lot => decide (lot.cost_basis ≤ pos.current_price))))
      (sortByKey_perm _ _) hshares (sortByKey_perm _ _)
    have hval : suggest_tax_efficient_sell pos target ts = some
        ⟨pos.symbol,
          (if 0 < (lossHarvestLoop pos.current_price
              (sortByKey (fun lot =>
                (lot.cost_basis - pos.current_price) / lot.cost_basis)
                pos.tax_lots)
              ⟨target / pos.current_price, [], 0, 0⟩).shares_to_sell then
            gainSellLoop pos.current_price
              (sortByKey (fun lot =>
                (pos.current_price - lot.cost_basis) / lot.cost_basis *
                  (if lot.is_long_term then 1 else 2) * ts)
                ((sortByKey (fun lot =>
                  (lot.cost_basis - pos.current_price) / lot.cost_basis)
                  pos.tax_lots).filter
                  (fun lot =>
                    decide (lot.cost_basis ≤ pos.current_price))))
              (lossHarvestLoop pos.current_price
                (sortByKey (fun lot =>
                  (lot.cost_basis - pos.current_price) / lot.cost_basis)
                  pos.tax_lots)
                ⟨target / pos.current_price, [], 0, 0⟩)
          else lossHarvestLoop pos.current_price
            (sortByKey (fun lot =>
              (lot.cost_basis - pos.current_price) / lot.cost_basis)
              pos.tax_lots)
            ⟨target / pos.current_price, [], 0, 0⟩).selected_lots,
          (if 0 < (lossHarvestLoop pos.current_price
              (sortByKey (fun lot =>
                (lot.cost_basis - pos.current_price) / lot.cost_basis)
                pos.tax_lots)
              ⟨target / pos.current_price, [], 0, 0⟩).shares_to_sell then
            gainSellLoop pos.current_price
              (sortByKey (fun lot =>
                (pos.current_price - lot.cost_basis) / lot.cost_basis *
                  (if lot.is_long_term then 1 else 2) * ts)
                ((sortByKey (fun lot =>
                  (lot.cost_basis - pos.current_price) / lot.cost_basis)
                  pos.tax_lots).filter
                  (fun lot =>
                    decide (lot.cost_basis ≤ pos.current_price))))
              (lossHarvestLoop pos.current_price
                (sortByKey (fun lot =>
                  (lot.cost_basis - pos.current_price) / lot.cost_basis)
                  pos.tax_lots)
                ⟨target / pos.current_price, [], 0, 0⟩)
          else lossHarvestLoop pos.current_price
            (sortByKey (fun lot =>
              (lot.cost_basis - pos.current_price) / lot.cost_basis)
              pos.tax_lots)
            ⟨target / pos.current_price, [], 0, 0⟩).total_proceeds,
          (if 0 < (lossHarvestLoop pos.current_price
              (sortByKey (fun lot =>
                (lot.cost_basis - pos.current_price) / lot.cost_basis)
                pos.tax_lots)
              ⟨target / pos.current_price, [], 0, 0⟩).shares_to_sell then
            gainSellLoop pos.current_price
              (sortByKey (fun lot =>
                (pos.current_price - lot.cost_basis) / lot.cost_basis *
                  (if lot.is_long_term then 1 else 2) * ts)
                ((sortByKey (fun lot =>
                  (lot.cost_basis - pos.current_price) / lot.cost_basis)
                  pos.tax_lots).filter
                  (fun lot =>
                    decide (lot.cost_basis ≤ pos.current_price))))
              (lossHarvestLoop pos.current_price
                (sortByKey (fun lot =>
                  (lot.cost_basis - pos.current_price) / lot.cost_basis)
                  pos.tax_lots)
                ⟨target / pos.current_price, [], 0, 0⟩)
          else lossHarvestLoop pos.current_price
            (sortByKey (fun lot =>
              (lot.cost_basis - pos.current_price) / lot.cost_basis)
              pos.tax_lots)
            ⟨target / pos.current_price, [], 0, 0⟩).total_tax_impact⟩ := by
      unfold suggest_tax_efficient_sell
      rw [if_neg hemp]
    rw [hval] at hr
    injection hr with hrr
    subst hrr
    exact key

/-- Witness for C10 at price `100`, one short-term lot of `1` share at
basis `120`, selling `100` of value. -/
theorem sellNeverOversells_C10_witness :
    (∀ e ∈ ([⟨1, 120, false⟩] : List SelectedLot),
      ∃ lot ∈ ([⟨1, 120, false⟩] : List TaxLot), e.shares ≤ lot.shares ∧
        e.cost_basis = lot.cost_basis ∧
        e.is_long_term = lot.is_long_term) ∧
    (([⟨1, 120, false⟩] : List SelectedLot).map SelectedLot.shares).sum ≤
      (([⟨1, 120, false⟩] : List TaxLot).map TaxLot.shares).sum :=
  sellNeverOversells_C10 ⟨"X", 100, [⟨1, 120, false⟩]⟩ 100 (1 / 2)
    ⟨"X", [⟨1, 120, false⟩], 100, 37 / 5⟩
    (by norm_num)
    (by norm_num [suggest_tax_efficient_sell, sortByKey, insertSorted,
      lossHarvestLoop, gainSellLoop, lotRate, long_term_tax_rate,
      short_term_tax_rate, min_def])

/-- C3 (code bug): the loss-harvesting branch of
`_suggest_tax_efficient_sell` adds `(cost_basis - price) * shares * rate`
-- the NEGATION of the documented `(proceeds_price - cost_basis) * shares *
rate` -- so a lot sold at a loss contributes a POSITIVE amount to the
plan's total tax impact. At price `100` with a single short-term lot of `1`
share bought at `120`, the code reports a total tax impact of `+37/5`,
while the specified accounting gives `-37/5`. -/
theorem lossLotTaxSign_C3 :
    (suggest_tax_efficient_sell ⟨"X", 100, [⟨1, 120, false⟩]⟩ 100
        (1 / 2)).map (fun r => r.tax_impact) = some (37 / 5) ∧
    specLotTaxImpact 100 120 1 false = -(37 / 5) := by
  constructor
  · norm_num [suggest_tax_efficient_sell, sortByKey, insertSorted,
      lossHarvestLoop, gainSellLoop, lotRate, long_term_tax_rate,
      short_term_tax_rate, min_def]
  · norm_num [specLotTaxImpact, long_term_tax_rate, short_term_tax_rate]

/-- C4 counterexample: when the solver raises, `_optimize_portfolio`
returns an EMPTY weight mapping (with Sharpe `0.0` and
`optimization_success = False`), not the equal-weight vector `1/n` per
asset that the claim promises. -/
theorem optimizeFallback_C4_counterexample :
    (optimize_portfolio ["A", "B"] (fun _ => .error ())).2.2 = false ∧
    (optimize_portfolio ["A", "B"] (fun _ => .error ())).1 = [] ∧
    (optimize_portfolio ["A", "B"] (fun _ => .error ())).1 ≠
      specEqualWeightVector ["A", "B"] := by
  decide

/-- C4 (amended): whenever the optimization fails with an exception --
zero assets (where building the initial guess divides by zero) or a raising
solver -- `_optimize_portfolio` catches the exception and returns the
fallback result: EMPTY weights, Sharpe `0.0` and
`optimization_success = false`; no exception propagates to the caller. -/
theorem optimizeFallback_C4 (columns : List String)
    (minimize : List ℚ → Except Unit MinimizeResult)
    (h : columns = [] ∨
      minimize (List.replicate columns.length
        (1 / (columns.length : ℚ))) = .error ()) :
    optimize_portfolio columns minimize = ([], 0, false) := by
  rcases h with h | h
  · subst h; rfl
  · by_cases hz : columns.length = 0
    · unfold optimize_portfolio
      rw [if_pos hz]
      rfl
    · unfold optimize_portfolio
      rw [if_neg hz, h]
      rfl

/-- Witness for C4 (amended) with one asset and a raising solver. -/
theorem optimizeFallback_C4_witness :
    optimize_portfolio ["A"]
      (fun _ => (Except.error () : Except Unit MinimizeResult)) =
      ([], 0, false) :=
  optimizeFallback_C4 ["A"] (fun _ => .error ()) (Or.inr rfl)

/-- C7 counterexample: `_calculate_portfolio_risk` reports `var_95` as the
raw (signed) 5th percentile `np.percentile(portfolio_returns, 5)`; on the
single-asset daily return series
`[-1/10, 0, 1/100, 1/50, 3/100]` it reports `-2/25`, a negative number,
not a positive magnitude. -/
theorem portfolioVar95Signed_C7_counterexample :
    portfolio_var_95 [[-(1 / 10)], [0], [1 / 100], [1 / 50], [3 / 100]]
        [1] = -(2 / 25) ∧
    portfolio_var_95 [[-(1 / 10)], [0], [1 / 100], [1 / 50], [3 / 100]]
        [1] < 0 := by
  have hceil : (⌈(1 / 5 : ℚ)⌉ : ℤ) = 1 := by
    rw [Int.ceil_eq_iff]
    norm_num
  have key : portfolio_var_95
      [[-(1 / 10)], [0], [1 / 100], [1 / 50], [3 / 100]] [1] = -(2 / 25) := by
    norm_num [portfolio_var_95, percentile, portfolioReturns, sortByKey,
      insertSorted, hceil]
  refine ⟨key, ?_⟩
  rw [key]
  norm_num

/-- C7 (amended): the risk analyzer's `_calculate_var_metrics` reports
`historical_var_95 = |np.percentile(returns, 5)|`, a non-negative
magnitude, for any series of at least two returns; the portfolio
analyzer's `_calculate_portfolio_risk`, by contrast, reports `var_95` as
the raw signed 5th percentile of the portfolio return series. -/
theorem var95Reporting_C7 (returnRows : List (List ℚ)) (weights : List ℚ)
    (returns : List ℚ) (h2 : 2 ≤ returns.length) :
    portfolio_var_95 returnRows weights =
      percentile (portfolioReturns returnRows weights) 5 ∧
    historical_var_95 returns = |percentile returns 5| ∧
    0 ≤ historical_var_95 returns := by
  refine ⟨rfl, ?_, ?_⟩
  · unfold historical_var_95
    rw [if_neg (by omega)]
  · unfold historical_var_95
    rw [if_neg (by omega)]
    exact abs_nonneg _

/-- Witness for C7 (amended) on a two-observation return series. -/
theorem var95Reporting_C7_witness :
    2 ≤ ([1 / 100, -(1 / 100)] : List ℚ).length ∧
    (portfolio_var_95 [[0]] [1] =
        percentile (portfolioReturns [[0]] [1]) 5 ∧
      historical_var_95 [1 / 100, -(1 / 100)] =
        |percentile [1 / 100, -(1 / 100)] 5| ∧
      0 ≤ historical_var_95 [1 / 100, -(1 / 100)]) :=
  ⟨by decide,
    var95Reporting_C7 [[0]] [1] [1 / 100, -(1 / 100)] (by decide)⟩

/-- C8 counterexample: for an expiration whose OTM-put (resp. OTM-call)
moneyness bucket holds no contract, `_analyze_volatility_skew` reports the
`put_skew` (resp. `call_skew`) as the number `0`, not as undefined/null:
with a single ATM contract the bucket mean is NaN and the skew is `0`. -/
theorem emptyBucketSkew_C8_counterexample :
    otm_put_vol [⟨0, "call", 1 / 5⟩] = none ∧
    put_skew [⟨0, "call", 1 / 5⟩] = some 0 ∧
    otm_call_vol [⟨0, "put", 1 / 5⟩] = none ∧
    call_skew [⟨0, "put", 1 / 5⟩] = some 0 := by
  refine ⟨?_, ?_, ?_, ?_⟩ <;>
    norm_num [otm_put_vol, otm_call_vol, put_skew, call_skew, seriesMean,
      List.filter]

/-- C8 (amended): an expiration lacking any contract in the OTM-put
(resp. OTM-call) bucket has its `put_skew` (resp. `call_skew`) reported as
the number `0`; when the OTM bucket is populated the skew is the bucket
mean minus the ATM mean, and is undefined (NaN) only when the ATM bucket
alone is empty. -/
theorem emptyBucketSkew_C8 (rows : List SkewRow) :
    (otm_put_vol rows = none → put_skew rows = some 0) ∧
    (otm_call_vol rows = none → call_skew rows = some 0) ∧
    (∀ v a, otm_put_vol rows = some v → atm_vol rows = some a →
      put_skew rows = some (v - a)) ∧
    (∀ v, otm_put_vol rows = some v → atm_vol rows = none →
      put_skew rows = none) := by
  refine ⟨?_, ?_, ?_, ?_⟩
  · intro h
    simp [put_skew, h]
  · intro h
    simp [call_skew, h]
  · intro v a hv ha
    simp [put_skew, hv, ha]
  · intro v hv ha
    simp [put_skew, hv, ha]

/-- Witness for C8 (amended) on a one-row chain with only an ATM call. -/
theorem emptyBucketSkew_C8_witness :
    otm_put_vol [⟨0, "call", 1 / 5⟩] = none ∧
    put_skew [⟨0, "call", 1 / 5⟩] = some 0 := by
  have hempty : otm_put_vol [⟨0, "call", 1 / 5⟩] = none := by
    norm_num [otm_put_vol, seriesMean, List.filter]
  exact ⟨hempty, (emptyBucketSkew_C8 [⟨0, "call", 1 / 5⟩]).1 hempty⟩

/-- C9 counterexample: on a chain with zero total call volume,
`boodle_loot/analysis/options.py` reports a put/call ratio of `1.0`, not
`0`. -/
theorem putCallRatioZero_C9_counterexample :
    boodleCallVolume [⟨0⟩] = 0 ∧
    put_call_ratio_boodle [⟨0⟩] [⟨5⟩] = 1 ∧
    put_call_ratio_boodle [⟨0⟩] [⟨5⟩] ≠ 0 := by
  refine ⟨rfl, rfl, ?_⟩
  norm_num [put_call_ratio_boodle, boodleCallVolume]

/-- C9 (amended): with positive total call volume both implementations
report `Σ put volume / Σ call volume`; with zero call volume the backend
implementation reports `0` while the boodle_loot implementation reports
`1.0`. -/
theorem putCallRatioZero_C9 (rows : List ChainRow)
    (calls puts : List BoodleOption) :
    (backendCallVolume rows = 0 → put_call_ratio_backend rows = 0) ∧
    (0 < backendCallVolume rows → put_call_ratio_backend rows =
      (backendPutVolume rows : ℚ) / (backendCallVolume rows : ℚ)) ∧
    (boodleCallVolume calls = 0 → put_call_ratio_boodle calls puts = 1) ∧
    (0 < boodleCallVolume calls → put_call_ratio_boodle calls puts =
      (boodlePutVolume puts : ℚ) / (boodleCallVolume calls : ℚ)) := by
  refine ⟨?_, ?_, ?_, ?_⟩
  · intro h
    unfold put_call_ratio_backend
    rw [h]
    norm_num
  · intro h
    unfold put_call_ratio_backend
    rw [if_pos h]
  · intro h
    unfold put_call_ratio_boodle
    rw [h]
    norm_num
  · intro h
    unfold put_call_ratio_boodle
    rw [if_pos h]

/-- Witness for C9 (amended): a backend chain and a boodle_loot chain,
each with zero call volume. -/
theorem putCallRatioZero_C9_witness :
    put_call_ratio_backend [⟨"call", 0⟩, ⟨"put", 5⟩] = 0 ∧
    put_call_ratio_boodle [⟨0⟩] [⟨7⟩] = 1 :=
  ⟨(putCallRatioZero_C9 [⟨"call", 0⟩, ⟨"put", 5⟩] [] []).1 rfl,
    (putCallRatioZero_C9 [] [⟨0⟩] [⟨7⟩]).2.2.1 rfl⟩

end InvestSage
